import Mathlib

/-!
Verification of the learn-quest-builder-pro question-bank application.

This file shallowly embeds the data model and the operations of the
repository that the checked properties concern:

* the classification-validation workflow of `useClassificationValidation`
  (`submitValidation`, `rejectValidation`): the hosted store is modelled as
  an explicit `Store` record holding the `questions`, `classification_validations`
  and `review_requests` tables, and each operation is a function from the
  store (plus the ambient user id and timestamp the code reads from
  `supabase.auth` and `new Date()`) to the updated store;
* the enhanced-classification hook (`classifyQuestion` in
  `useEnhancedClassification`): the success and error paths acting on the
  hook's `ClassificationState`;
* the redundancy scan of `analyzeQuestionBank` in `useSemanticAnalysis`;
* the `TestPreview` page (total points, print handling, answer-key block);
* the `TOSMatrix` component (`formatItemNumbers`, the per-level and grand
  totals of the distribution matrix).

Numeric score fields (`confidence`, `quality_score`, similarity scores,
points) are embedded as rationals; JavaScript numbers in this code never
rely on floating-point rounding for the compared thresholds.
-/

namespace LearnQuest

/-! ## Validation workflow (`useClassificationValidation`) -/

/-- A question row, restricted to the columns the validation workflow reads
and writes (`bloom_level`, `knowledge_dimension`, `difficulty`,
`classification_confidence`, `validation_status`, `validated_by`,
`validation_timestamp`, `needs_review`). -/
structure Question where
  bloom_level : String
  knowledge_dimension : String
  difficulty : String
  classification_confidence : ℚ
  validation_status : String
  validated_by : Option String
  validation_timestamp : Option String
  needs_review : Bool
deriving DecidableEq, Repr

/-- The `validated_classification` payload of a `ValidationResult`
(bloom level, knowledge dimension, difficulty - no confidence field). -/
structure Classification where
  bloom_level : String
  knowledge_dimension : String
  difficulty : String
deriving DecidableEq, Repr

/-- A possibly-partial classification JSON payload as stored in
`classification_validations` rows: `submitValidation` stores all four keys
of the original snapshot and three of the validated one, while
`rejectValidation` stores the empty object for both. -/
structure ClassificationPayload where
  bloom_level : Option String
  knowledge_dimension : Option String
  difficulty : Option String
  confidence : Option ℚ
deriving DecidableEq, Repr

/-- The empty JSON payload written by `rejectValidation`. -/
def ClassificationPayload.empty : ClassificationPayload :=
  ⟨none, none, none, none⟩

/-- A row of the `classification_validations` table. -/
structure ValidationRecord where
  question_id : String
  original_classification : ClassificationPayload
  validated_classification : ClassificationPayload
  validator_id : String
  validation_confidence : ℚ
  notes : Option String
deriving DecidableEq, Repr

/-- A row of the `review_requests` table. -/
structure ReviewRequest where
  question_id : String
  request_type : String
  requested_by : String
  assigned_to : Option String
  status : String
deriving DecidableEq, Repr

/-- The reviewer-submitted `ValidationResult` argument of `submitValidation`. -/
structure ValidationResult where
  validated_classification : Classification
  validation_confidence : ℚ
  notes : Option String
  changes_made : List String
deriving DecidableEq, Repr

/-- The backing store: the three tables the validation workflow touches.
`questions` is an association list from question id to row. -/
structure Store where
  questions : List (String × Question)
  validations : List ValidationRecord
  reviewRequests : List ReviewRequest
deriving DecidableEq, Repr

/-- Update the question row with the given id in place (the
`supabase.from('questions').update(...).eq('id', qid)` pattern: every row
whose id matches is updated, other rows are untouched). -/
def updateQuestion (qid : String) (f : Question → Question)
    (l : List (String × Question)) : List (String × Question) :=
  l.map fun p => if p.1 = qid then (p.1, f p.2) else p

/-- The operation `submitValidation(questionId, validationResult)` from
`useClassificationValidation`: reads the question's current classification
as the original snapshot (the `.single()` read raises if the row is
absent), inserts a `classification_validations` row pairing the original
and the submitted validated classification, updates the question in place
with the validated classification and the submitted confidence, and marks
every `review_requests` row for this question that is assigned to the
calling user as completed.  `user` is the authenticated user id and `now`
the ISO timestamp the code takes from `new Date()`. -/
def submitValidation (user now qid : String) (r : ValidationResult)
    (s : Store) : Except String Store :=
  match s.questions.lookup qid with
  | none => .error "question not found"
  | some q =>
    let original : ClassificationPayload :=
      ⟨some q.bloom_level, some q.knowledge_dimension, some q.difficulty,
        some q.classification_confidence⟩
    let rcd : ValidationRecord :=
      { question_id := qid
        original_classification := original
        validated_classification :=
          ⟨some r.validated_classification.bloom_level,
            some r.validated_classification.knowledge_dimension,
            some r.validated_classification.difficulty, none⟩
        validator_id := user
        validation_confidence := r.validation_confidence
        notes := r.notes }
    .ok
      { questions :=
          updateQuestion qid
            (fun q => { q with
              bloom_level := r.validated_classification.bloom_level
              knowledge_dimension := r.validated_classification.knowledge_dimension
              difficulty := r.validated_classification.difficulty
              validation_status := "validated"
              validated_by := some user
              validation_timestamp := some now
              classification_confidence := r.validation_confidence })
            s.questions
        validations := s.validations ++ [rcd]
        reviewRequests :=
          s.reviewRequests.map fun req =>
            if req.question_id = qid ∧ req.assigned_to = some user then
              { req with status := "completed" }
            else req }

/-- The operation `rejectValidation(questionId, reason)` from
`useClassificationValidation`: marks the question rejected and in need of
review, then logs a `classification_validations` row with empty
classification payloads, confidence 0 and the reason in the notes. -/
def rejectValidation (user now qid reason : String) (s : Store) : Store :=
  { questions :=
      updateQuestion qid
        (fun q => { q with
          validation_status := "rejected"
          validated_by := some user
          validation_timestamp := some now
          needs_review := true })
        s.questions
    validations := s.validations ++
      [{ question_id := qid
         original_classification := ClassificationPayload.empty
         validated_classification := ClassificationPayload.empty
         validator_id := user
         validation_confidence := 0
         notes := some ("Rejected: " ++ reason) }]
    reviewRequests := s.reviewRequests }

/-! Lookup after an in-place update. -/

theorem lookup_updateQuestion (l : List (String × Question)) (qid : String)
    (f : Question → Question) :
    (updateQuestion qid f l).lookup qid = (l.lookup qid).map f := by
  induction l with
  | nil => rfl
  | cons p tl ih =>
    obtain ⟨k, v⟩ := p
    simp only [updateQuestion, List.map_cons]
    by_cases hk : k = qid
    · subst hk
      rw [if_pos rfl]
      simp [List.lookup]
    · rw [if_neg (by simpa using hk)]
      have hbeq : (qid == k) = false := by
        simpa [beq_iff_eq] using fun h => hk h.symm
      simp only [List.lookup, hbeq]
      exact ih

theorem lookup_updateQuestion_ne (l : List (String × Question)) (qid qid2 : String)
    (f : Question → Question) (hne : qid2 ≠ qid) :
    (updateQuestion qid f l).lookup qid2 = l.lookup qid2 := by
  induction l with
  | nil => rfl
  | cons p tl ih =>
    obtain ⟨k, v⟩ := p
    simp only [updateQuestion, List.map_cons]
    by_cases hk : k = qid
    · subst hk
      rw [if_pos rfl]
      have hbeq : (qid2 == k) = false := by simpa [beq_iff_eq] using hne
      simp only [List.lookup, hbeq]
      exact ih
    · rw [if_neg (by simpa using hk)]
      by_cases h2 : qid2 = k
      · subst h2; simp [List.lookup]
      · have hbeq : (qid2 == k) = false := by simpa [beq_iff_eq] using h2
        simp only [List.lookup, hbeq]
        exact ih

theorem updateQuestion_idem (qid : String) (f : Question → Question)
    (hf : ∀ q, f (f q) = f q) (l : List (String × Question)) :
    updateQuestion qid f (updateQuestion qid f l) = updateQuestion qid f l := by
  unfold updateQuestion
  rw [List.map_map]
  apply List.map_congr_left
  intro p _
  by_cases hk : p.1 = qid
  · simp only [Function.comp_apply, if_pos hk, if_pos rfl, hf]
  · simp only [Function.comp_apply, if_neg hk]

/-- C1: when the question exists in the store, `submitValidation` appends a
validation record whose `original_classification` is the question's
classification (bloom level, knowledge dimension, difficulty, confidence)
as read right before the call, and the question's stored classification
afterward equals the submitted `validated_classification`. -/
theorem submitValidation_original_and_update
    (user now qid : String) (r : ValidationResult) (s : Store) (q : Question)
    (h : s.questions.lookup qid = some q) :
    ∃ s', submitValidation user now qid r s = .ok s' ∧
      s'.validations = s.validations ++
        [{ question_id := qid
           original_classification :=
             ⟨some q.bloom_level, some q.knowledge_dimension, some q.difficulty,
               some q.classification_confidence⟩
           validated_classification :=
             ⟨some r.validated_classification.bloom_level,
               some r.validated_classification.knowledge_dimension,
               some r.validated_classification.difficulty, none⟩
           validator_id := user
           validation_confidence := r.validation_confidence
           notes := r.notes }] ∧
      ∃ q', s'.questions.lookup qid = some q' ∧
        q'.bloom_level = r.validated_classification.bloom_level ∧
        q'.knowledge_dimension = r.validated_classification.knowledge_dimension ∧
        q'.difficulty = r.validated_classification.difficulty := by
  unfold submitValidation
  rw [h]
  refine ⟨_, rfl, rfl, ?_⟩
  dsimp only
  rw [lookup_updateQuestion, h]
  exact ⟨_, rfl, rfl, rfl, rfl⟩

/-- Concrete question used in the witnesses. -/
def wQ : Question :=
  ⟨"remember", "factual", "easy", 1/2, "pending", none, none, false⟩

/-- Concrete store with a single question `q1`. -/
def wStore : Store := ⟨[("q1", wQ)], [], []⟩

/-- Concrete reviewer-submitted result used in the witnesses. -/
def wResult : ValidationResult :=
  ⟨⟨"apply", "conceptual", "average"⟩, 9/10, none, []⟩

theorem submitValidation_original_and_update_witness :
    ∃ s', submitValidation "u1" "t1" "q1" wResult wStore = .ok s' ∧
      s'.validations = wStore.validations ++
        [{ question_id := "q1"
           original_classification :=
             ⟨some wQ.bloom_level, some wQ.knowledge_dimension, some wQ.difficulty,
               some wQ.classification_confidence⟩
           validated_classification :=
             ⟨some wResult.validated_classification.bloom_level,
               some wResult.validated_classification.knowledge_dimension,
               some wResult.validated_classification.difficulty, none⟩
           validator_id := "u1"
           validation_confidence := wResult.validation_confidence
           notes := wResult.notes }] ∧
      ∃ q', s'.questions.lookup "q1" = some q' ∧
        q'.bloom_level = wResult.validated_classification.bloom_level ∧
        q'.knowledge_dimension = wResult.validated_classification.knowledge_dimension ∧
        q'.difficulty = wResult.validated_classification.difficulty :=
  submitValidation_original_and_update "u1" "t1" "q1" wResult wStore wQ rfl

/-- C3: when the question exists, `rejectValidation` leaves its
`validation_status` at `"rejected"` with `needs_review = true`, and the
operation is idempotent on the questions table: a second identical call
(same user, timestamp, question id and reason) does not change any
question row further. -/
theorem rejectValidation_rejected_idem
    (user now qid reason : String) (s : Store) (q : Question)
    (h : s.questions.lookup qid = some q) :
    (∃ q', (rejectValidation user now qid reason s).questions.lookup qid = some q' ∧
      q'.validation_status = "rejected" ∧ q'.needs_review = true) ∧
    (rejectValidation user now qid reason
        (rejectValidation user now qid reason s)).questions =
      (rejectValidation user now qid reason s).questions := by
  constructor
  · unfold rejectValidation
    dsimp only
    rw [lookup_updateQuestion, h]
    exact ⟨_, rfl, rfl, rfl⟩
  · unfold rejectValidation
    dsimp only
    exact updateQuestion_idem qid
      (fun q => { q with
        validation_status := "rejected"
        validated_by := some user
        validation_timestamp := some now
        needs_review := true })
      (fun q => rfl) s.questions

theorem rejectValidation_rejected_idem_witness :
    ∃ q', ((rejectValidation "u1" "t1" "q1" "dup" wStore).questions.lookup "q1") =
        some q' ∧ q'.validation_status = "rejected" ∧ q'.needs_review = true :=
  (rejectValidation_rejected_idem "u1" "t1" "q1" "dup" wStore wQ rfl).1

/-- A pending review request for question `q1` assigned to reviewer `u2`. -/
def wReqOther : ReviewRequest := ⟨"q1", "peer_review", "u0", some "u2", "pending"⟩

/-- Store with question `q1` and a pending request assigned to `u2`. -/
def wStoreOther : Store := ⟨[("q1", wQ)], [], [wReqOther]⟩

/-- C9 counterexample: user `u1` submits a validation for `q1` while a
pending review request for `q1` is assigned to `u2`; after the call that
request is still `"pending"`, not `"completed"` - the update filters on
`assigned_to = user.id`, so it does not complete pending requests of other
reviewers. -/
theorem submitValidation_pending_counterexample :
    wReqOther.status = "pending" ∧ wReqOther.question_id = "q1" ∧
    wStoreOther.reviewRequests = [wReqOther] ∧
    (submitValidation "u1" "t1" "q1" wResult wStoreOther).map
      (fun s => s.reviewRequests) = .ok [wReqOther] :=
  ⟨rfl, rfl, rfl, rfl⟩

/-- C9 (amended): after `submitValidation(questionId, result)` completes,
every review request for that question assigned to the calling user is in
status `"completed"` (whatever its prior status), and every other review
request is unchanged - in particular a pending request assigned to a
different reviewer stays pending. -/
theorem submitValidation_requests_amended
    (user now qid : String) (r : ValidationResult) (s s' : Store)
    (h : submitValidation user now qid r s = .ok s')
    (i : ℕ) (req : ReviewRequest) (hi : s.reviewRequests[i]? = some req) :
    (req.question_id = qid ∧ req.assigned_to = some user →
       s'.reviewRequests[i]? = some { req with status := "completed" }) ∧
    (¬(req.question_id = qid ∧ req.assigned_to = some user) →
       s'.reviewRequests[i]? = some req) := by
  unfold submitValidation at h
  cases hq : s.questions.lookup qid with
  | none => rw [hq] at h; exact absurd h (by simp)
  | some q =>
    rw [hq] at h
    injection h with h
    subst h
    dsimp only
    constructor <;> intro hc
    · rw [List.getElem?_map, hi, Option.map_some']
      rw [if_pos hc]
    · rw [List.getElem?_map, hi, Option.map_some']
      rw [if_neg hc]

/-- A pending review request for question `q1` assigned to reviewer `u1`. -/
def wReqSelf : ReviewRequest := ⟨"q1", "peer_review", "u0", some "u1", "pending"⟩

/-- Store with question `q1` and a pending request assigned to `u1`. -/
def wStoreSelf : Store := ⟨[("q1", wQ)], [], [wReqSelf]⟩

theorem submitValidation_requests_amended_witness :
    ∃ s', submitValidation "u1" "t1" "q1" wResult wStoreSelf = .ok s' ∧
      s'.reviewRequests[0]? = some { wReqSelf with status := "completed" } := by
  refine ⟨_, rfl, ?_⟩
  exact (submitValidation_requests_amended "u1" "t1" "q1" wResult wStoreSelf _ rfl
    0 wReqSelf rfl).1 ⟨rfl, rfl⟩

/-! ## Enhanced classification (`useEnhancedClassification`) -/

/-- The classifier output consumed by `classifyQuestion`
(`MLClassificationResult` from the ML classifier service). -/
structure MLClassificationResult where
  bloom_level : String
  knowledge_dimension : String
  difficulty : String
  confidence : ℚ
  quality_score : ℚ
  readability_score : ℚ
  needs_review : Bool
deriving DecidableEq, Repr

/-- One entry of the hook's `similarQuestions` list. -/
structure SimilarQuestion where
  id : String
  text : String
  similarity : ℚ
deriving DecidableEq, Repr

/-- The hook's `ClassificationState`. -/
structure ClassificationState where
  result : Option MLClassificationResult
  loading : Bool
  error : Option String
  similarQuestions : List SimilarQuestion
  validationStatus : String
  qualityIssues : List String
deriving DecidableEq, Repr

/-- The default configured quality threshold of the hook's options. -/
def qualityThresholdDefault : ℚ := 6/10

/-- Step 2 of `classifyQuestion`: the quality-issues list, in the order the
code pushes the messages (quality score, readability, confidence), followed
by the similar-questions message appended in step 3. -/
def qualityIssuesOf (c : MLClassificationResult) (qualityThreshold : ℚ)
    (similarCount : ℕ) : List String :=
  (if c.quality_score < qualityThreshold then
      ["Question quality below threshold"] else []) ++
  (if c.readability_score > 12 then
      ["Question may be too complex for target audience"] else []) ++
  (if c.confidence < 7/10 then
      ["Low classification confidence - needs human review"] else []) ++
  (if similarCount > 0 then
      ["Found " ++ toString similarCount ++ " similar questions"] else [])

/-- Step 4 of `classifyQuestion`: the resulting validation status. -/
def validationStatusOf (c : MLClassificationResult) (issues : List String) :
    String :=
  if c.needs_review || issues.length > 0 then "needs_review" else "validated"

/-- The operation `classifyQuestion` from `useEnhancedClassification`, as a transition on
the hook state.  `outcome` is the result of the awaited pipeline (the ML
classification plus the fetched similar questions): on success the state is
replaced with the classification, its quality issues and its validation
status; on any internal error the code keeps the previous state and only
sets `loading := false` and the error message. -/
def classifyQuestion (prev : ClassificationState)
    (outcome : Except String (MLClassificationResult × List SimilarQuestion))
    (qualityThreshold : ℚ) : ClassificationState :=
  match outcome with
  | .ok (c, sims) =>
    let issues := qualityIssuesOf c qualityThreshold sims.length
    { result := some c
      loading := false
      error := none
      similarQuestions := sims
      validationStatus := validationStatusOf c issues
      qualityIssues := issues }
  | .error msg =>
    { prev with loading := false, error := some msg }

/-- C2: whenever the classifier's confidence is below 0.7 or its quality
score is below the configured quality threshold, the successful
`classifyQuestion` run flags the result for review: the validation status
is `"needs_review"` and the quality-issues list is non-empty. -/
theorem classifyQuestion_needs_review
    (prev : ClassificationState) (c : MLClassificationResult)
    (sims : List SimilarQuestion) (qualityThreshold : ℚ)
    (h : c.confidence < 7/10 ∨ c.quality_score < qualityThreshold) :
    (classifyQuestion prev (.ok (c, sims)) qualityThreshold).validationStatus =
        "needs_review" ∧
    (classifyQuestion prev (.ok (c, sims)) qualityThreshold).qualityIssues ≠ [] := by
  have hne : qualityIssuesOf c qualityThreshold sims.length ≠ [] := by
    unfold qualityIssuesOf
    rcases h with h | h
    · rw [if_pos h]
      rcases ite_eq_or_eq (c.quality_score < qualityThreshold)
          ["Question quality below threshold"] ([] : List String) with h2 | h2 <;>
        simp [h2]
    · rw [if_pos h]
      simp
  refine ⟨?_, hne⟩
  have hlen : 0 < (qualityIssuesOf c qualityThreshold sims.length).length :=
    List.length_pos.mpr hne
  unfold classifyQuestion validationStatusOf
  dsimp only
  rw [if_pos]
  simp [hlen]

theorem classifyQuestion_needs_review_witness :
    ((1 : ℚ)/2 < 7/10 ∨ (1 : ℚ) < qualityThresholdDefault) ∧
    (classifyQuestion ⟨none, false, none, [], "pending", []⟩
        (.ok (⟨"remember", "factual", "easy", 1/2, 1, 5, false⟩, []))
        qualityThresholdDefault).validationStatus = "needs_review" :=
  ⟨Or.inl (by norm_num),
    (classifyQuestion_needs_review ⟨none, false, none, [], "pending", []⟩
      ⟨"remember", "factual", "easy", 1/2, 1, 5, false⟩ [] qualityThresholdDefault
      (Or.inl (by norm_num))).1⟩

/-- C5: when the classification pipeline raises any internal error,
`classifyQuestion` surfaces a classification-failed error (the state's
`error` field is set to the message) and the previously held
classification result is left unchanged. -/
theorem classifyQuestion_error_preserves_result
    (prev : ClassificationState) (msg : String) (qualityThreshold : ℚ) :
    (classifyQuestion prev (.error msg) qualityThreshold).error = some msg ∧
    (classifyQuestion prev (.error msg) qualityThreshold).result = prev.result :=
  ⟨rfl, rfl⟩

/-! ## Redundancy scan (`analyzeQuestionBank` in `useSemanticAnalysis`) -/

/-- A question-bank entry as passed to `analyzeQuestionBank`. -/
structure BankQuestion where
  id : String
  text : String
  topic : String
  bloom_level : String
  knowledge_dimension : String
deriving DecidableEq, Repr

/-- A flagged pair of the redundancy report
(`{ id1, id2, similarity }`). -/
structure RedundancyPair where
  id1 : String
  id2 : String
  similarity : ℚ
deriving DecidableEq, Repr

/-- The index pairs `i < j` visited by the nested loop of
`analyzeQuestionBank`, in visiting order. -/
def orderedPairs : List BankQuestion → List (BankQuestion × BankQuestion)
  | [] => []
  | q :: qs => qs.map (fun q2 => (q, q2)) ++ orderedPairs qs

/-- The redundancy pairs `analyzeQuestionBank` collects: for every `i < j`
it computes `similarity(questions[i].text, questions[j].text)` with the
semantic analyzer (`sim` here) and pushes the pair when the similarity is
`≥ similarityThreshold`. -/
def redundancyPairs (sim : String → String → ℚ) (threshold : ℚ)
    (questions : List BankQuestion) : List RedundancyPair :=
  (orderedPairs questions).filterMap fun p =>
    if sim p.1.text p.2.text ≥ threshold then
      some ⟨p.1.id, p.2.id, sim p.1.text p.2.text⟩
    else none

/-- C4: redundancy detection over a fixed question set and a fixed pairwise
similarity function is threshold-monotonic - every pair flagged at the
higher threshold `t2` is also flagged at the lower threshold `t1`. -/
theorem redundancyPairs_mono (sim : String → String → ℚ) (t1 t2 : ℚ)
    (qs : List BankQuestion) (h12 : t1 ≤ t2) :
    ∀ p ∈ redundancyPairs sim t2 qs, p ∈ redundancyPairs sim t1 qs := by
  intro p hp
  rw [redundancyPairs, List.mem_filterMap] at hp ⊢
  obtain ⟨a, ha, hfa⟩ := hp
  refine ⟨a, ha, ?_⟩
  by_cases hc : sim a.1.text a.2.text ≥ t2
  · rw [if_pos hc] at hfa
    rw [if_pos (le_trans h12 hc)]
    exact hfa
  · rw [if_neg hc] at hfa
    exact absurd hfa (by simp)

/-- Similarity function used in the C4 witness. -/
def wSim : String → String → ℚ := fun a b => if a = b then 1 else 3/10

/-- Two-question bank used in the C4 witness. -/
def wBank : List BankQuestion :=
  [⟨"a", "What is X", "t", "remember", "factual"⟩,
   ⟨"b", "What is X", "t", "remember", "factual"⟩]

theorem redundancyPairs_mono_witness :
    (1 : ℚ)/2 ≤ 8/10 ∧
    (⟨"a", "b", 1⟩ : RedundancyPair) ∈ redundancyPairs wSim (1/2) wBank :=
  ⟨by norm_num,
    redundancyPairs_mono wSim (1/2) (8/10) wBank (by norm_num) ⟨"a", "b", 1⟩
      (by norm_num [redundancyPairs, orderedPairs, wBank, wSim])⟩

/-! ## Test preview (`TestPreview` page) -/

/-- The observable outcome of `handlePrint`: the value of the
`showAnswerKey` state while `window.print()` runs, and its value after the
handler finishes. -/
structure PrintRun where
  keyVisibleDuringPrint : Bool
  finalKeyVisible : Bool
deriving DecidableEq, Repr

/-- The handler `handlePrint` from `TestPreview`: `setShowAnswerKey(false)`, then after
the re-render timeout `window.print()` runs (with the suppressed state) and
`setShowAnswerKey(true)` is called. -/
def handlePrint (_showAnswerKey : Bool) : PrintRun :=
  let suppressed := false
  let duringPrint := suppressed
  let restored := true
  ⟨duringPrint, restored⟩

/-- Whether the answer-key block appears in the given medium: the block is
rendered only when `showAnswerKey` is true, and it carries the
`print:hidden` class, so in print media it is never displayed. -/
def answerKeyDisplayed (showAnswerKey isPrintMedia : Bool) : Bool :=
  showAnswerKey && !isPrintMedia

/-- C6 counterexample: with the answer key hidden before printing
(`showAnswerKey = false`), `handlePrint` leaves the toggle `true`
afterwards - it does not restore the pre-call state. -/
theorem handlePrint_restore_counterexample :
    (handlePrint false).finalKeyVisible ≠ false := by decide

/-- C6 (amended): `handlePrint` suppresses the answer key before printing
(during `window.print()` the toggle is off and the key is not part of the
printed content - the key block is additionally `print:hidden`, so it is
never in print output for any toggle state), and after printing it always
sets the toggle to shown (`true`), regardless of the prior state. -/
theorem handlePrint_amended (prior : Bool) :
    (handlePrint prior).keyVisibleDuringPrint = false ∧
    answerKeyDisplayed (handlePrint prior).keyVisibleDuringPrint true = false ∧
    (∀ key : Bool, answerKeyDisplayed key true = false) ∧
    (handlePrint prior).finalKeyVisible = true := by
  refine ⟨rfl, rfl, ?_, rfl⟩
  intro key
  cases key <;> rfl

theorem handlePrint_amended_witness :
    (handlePrint true).keyVisibleDuringPrint = false ∧
    (handlePrint true).finalKeyVisible = true :=
  ⟨(handlePrint_amended true).1, (handlePrint_amended true).2.2.2⟩

/-- A test item of `generated_tests.items` as read by `TestPreview`,
restricted to the fields the total-points computation and answer key use;
`points` is optional in the row shape. -/
structure TestItem where
  question_text : Option String
  question_type : Option String
  correct_answer : Option String
  points : Option ℚ
deriving DecidableEq, Repr

/-- The per-item contribution to the displayed total: the code adds
`item.points || 1`, so a missing `points` field and a zero `points` value
both contribute `1` (JavaScript `||` treats `0` as falsy). -/
def effectivePoints (item : TestItem) : ℚ :=
  match item.points with
  | none => 1
  | some p => if p = 0 then 1 else p

/-- The computation `totalPoints` from `TestPreview`:
`items.reduce((sum, item) => sum + (item.points || 1), 0)`. -/
def totalPoints (items : List TestItem) : ℚ :=
  items.foldl (fun sum item => sum + effectivePoints item) 0

/-- An item whose `points` field is `0`. -/
def wZeroItem : TestItem := ⟨some "Q", some "essay", some "-", some 0⟩

/-- C7 counterexample: a test with a single item whose per-item points are
`0` displays a total of `1`, not the sum `0` of the per-item points. -/
theorem totalPoints_counterexample :
    wZeroItem.points = some 0 ∧ totalPoints [wZeroItem] = 1 ∧ (1 : ℚ) ≠ 0 :=
  ⟨rfl, by norm_num [totalPoints, effectivePoints, wZeroItem], by norm_num⟩

theorem foldl_add_effectivePoints (items : List TestItem) (a : ℚ) :
    items.foldl (fun sum item => sum + effectivePoints item) a =
      a + (items.map effectivePoints).sum := by
  induction items generalizing a with
  | nil => simp
  | cons it tl ih =>
    rw [List.foldl_cons, ih, List.map_cons, List.sum_cons]
    ring

/-- C7 (amended): the total points displayed by the preview equal the sum
over the test's items of their effective points, where an item with a
missing or zero `points` field contributes `1`; in particular, whenever
every item carries a nonzero points value, the displayed total equals the
sum of the per-item points. -/
theorem totalPoints_amended (items : List TestItem) :
    totalPoints items = (items.map effectivePoints).sum ∧
    ((∀ it ∈ items, ∃ p, it.points = some p ∧ p ≠ 0) →
      totalPoints items = (items.map (fun it => it.points.getD 0)).sum) := by
  have hbase : totalPoints items = (items.map effectivePoints).sum := by
    rw [totalPoints, foldl_add_effectivePoints, zero_add]
  refine ⟨hbase, fun h => ?_⟩
  rw [hbase]
  congr 1
  apply List.map_congr_left
  intro it hit
  obtain ⟨p, hp, hp0⟩ := h it hit
  simp [effectivePoints, hp, hp0]

/-- Items with nonzero explicit points used in the C7 witness. -/
def wItemA : TestItem := ⟨some "QA", some "multiple-choice", some "a", some 2⟩

/-- Second witness item. -/
def wItemB : TestItem := ⟨some "QB", some "essay", some "-", some 3⟩

theorem totalPoints_amended_witness :
    totalPoints [wItemA, wItemB] =
      ([wItemA, wItemB].map (fun it => it.points.getD 0)).sum :=
  (totalPoints_amended [wItemA, wItemB]).2 (by
    intro it hit
    simp only [List.mem_cons, List.not_mem_nil, or_false] at hit
    rcases hit with h | h <;> subst h
    · exact ⟨2, rfl, by norm_num⟩
    · exact ⟨3, rfl, by norm_num⟩)

/-! ## TOS distribution matrix (`TOSMatrix` component) -/

/-- The per-topic entry of `TOSData.distribution`: one ordered list of
assigned item numbers per Bloom level, plus the per-topic `total` shown in
the matrix row. -/
structure TopicDistribution where
  remembering : List ℕ
  understanding : List ℕ
  applying : List ℕ
  analyzing : List ℕ
  evaluating : List ℕ
  creating : List ℕ
  total : ℕ
deriving DecidableEq, Repr

/-- The six keys of the `bloomLevels` array in `TOSMatrix`, in its order. -/
inductive BloomKey where
  | remembering
  | understanding
  | applying
  | analyzing
  | evaluating
  | creating
deriving DecidableEq, Repr

/-- The key list `bloomLevels.map(l => l.key)` in its source order. -/
def bloomKeys : List BloomKey :=
  [.remembering, .understanding, .applying, .analyzing, .evaluating, .creating]

/-- The cell `topicData[level.key]` of a topic row at a Bloom level. -/
def cellOf (t : TopicDistribution) : BloomKey → List ℕ
  | .remembering => t.remembering
  | .understanding => t.understanding
  | .applying => t.applying
  | .analyzing => t.analyzing
  | .evaluating => t.evaluating
  | .creating => t.creating

/-- The TOS data consumed by `TOSMatrix`, restricted to the fields the
matrix totals use: the configured total item count and the topic-keyed
distribution (an association list mirroring `Object.entries`). -/
structure TOSData where
  totalItems : ℕ
  distribution : List (String × TopicDistribution)
deriving DecidableEq, Repr

/-- The per-level total `bloomTotals[level.key]` of `TOSMatrix`: the sum
over all topics of `topic[level.key].length`. -/
def bloomTotal (d : TOSData) (k : BloomKey) : ℕ :=
  (d.distribution.map (fun p => (cellOf p.2 k).length)).sum

/-- The `grandTotal` of `TOSMatrix`: the sum of the six per-level totals. -/
def grandTotal (d : TOSData) : ℕ :=
  (bloomKeys.map (bloomTotal d)).sum

/-- All item numbers of one topic row, level by level. -/
def topicItemNumbers (t : TopicDistribution) : List ℕ :=
  (bloomKeys.map (cellOf t)).flatten

/-- All item numbers assigned anywhere in the distribution matrix. -/
def allItemNumbers (d : TOSData) : List ℕ :=
  (d.distribution.map (fun p => topicItemNumbers p.2)).flatten

theorem sum_map_add (l : List β) (f g : β → ℕ) :
    (l.map (fun b => f b + g b)).sum = (l.map f).sum + (l.map g).sum := by
  induction l with
  | nil => rfl
  | cons b tl ih =>
    simp only [List.map_cons, List.sum_cons, ih]
    ring

theorem sum_map_sum_comm (l1 : List α) (l2 : List β) (f : α → β → ℕ) :
    (l1.map (fun a => (l2.map (f a)).sum)).sum =
      (l2.map (fun b => (l1.map (fun a => f a b)).sum)).sum := by
  induction l1 with
  | nil => simp
  | cons a tl ih =>
    simp only [List.map_cons, List.sum_cons]
    rw [sum_map_add, ih]

theorem grandTotal_eq_length (d : TOSData) :
    grandTotal d = (allItemNumbers d).length := by
  unfold grandTotal allItemNumbers bloomTotal topicItemNumbers
  rw [List.length_flatten, List.map_map]
  have h : ∀ p : String × TopicDistribution,
      (List.length ∘ fun p => (bloomKeys.map (cellOf p.2)).flatten) p =
        (bloomKeys.map (fun k => (cellOf p.2 k).length)).sum := by
    intro p
    simp only [Function.comp_apply, List.length_flatten, List.map_map]
    rfl
  rw [List.map_congr_left (fun p _ => h p)]
  exact sum_map_sum_comm bloomKeys d.distribution (fun k p => (cellOf p.2 k).length)

/-- Modelled from the spec: the TOS Builder invariant enforced at save
time - "the union of all item-number blocks is exactly `1..total_items`
with no gaps or overlaps".  The builder code that produces and saves the
distribution is not among the sources here (only the `TOSMatrix` display
component is), so validity of a configuration is taken from the spec's
words: the multiset of all assigned item numbers is exactly
`[1, ..., totalItems]`. -/
def ValidTOS (d : TOSData) : Prop :=
  (allItemNumbers d).Perm (List.range' 1 d.totalItems)

/-- C8: for every valid TOS configuration, the grand total computed by the
matrix (the sum, over all topics and all six Bloom levels, of the number
of item numbers in each cell) equals the configured total item count. -/
theorem grandTotal_eq_totalItems (d : TOSData) (h : ValidTOS d) :
    grandTotal d = d.totalItems := by
  rw [grandTotal_eq_length, h.length_eq, List.length_range']

/-- Witness topic A: items 1-2 at Remembering, item 3 at Creating. -/
def wTopicA : TopicDistribution := ⟨[1, 2], [], [], [], [], [3], 3⟩

/-- Witness topic B: item 4 at Understanding. -/
def wTopicB : TopicDistribution := ⟨[], [4], [], [], [], [], 1⟩

/-- Witness TOS configuration partitioning `1..4` over two topics. -/
def wTOS : TOSData := ⟨4, [("A", wTopicA), ("B", wTopicB)]⟩

theorem grandTotal_eq_totalItems_witness :
    ValidTOS wTOS ∧ grandTotal wTOS = wTOS.totalItems := by
  have hv : ValidTOS wTOS := by
    show (allItemNumbers wTOS).Perm (List.range' 1 wTOS.totalItems)
    have h1 : allItemNumbers wTOS = [1, 2, 3, 4] := rfl
    have h2 : List.range' 1 wTOS.totalItems = [1, 2, 3, 4] := rfl
    rw [h1, h2]
  exact ⟨hv, grandTotal_eq_totalItems wTOS hv⟩

/-! ## `formatItemNumbers` (run-length display of item numbers) -/

/-- One rendered group of `formatItemNumbers`:
`start === end ? start.toString() : start + "-" + end`. -/
def groupStr (a b : Int) : String :=
  if a = b then toString a else toString a ++ "-" ++ toString b

/-- The `for` loop of `formatItemNumbers`: `a`/`b` are the mutable
`start`/`end` variables, `groups` the accumulator; each remaining element
either extends the current run (`items[i] === end + 1`) or closes it. -/
def formatLoop (groups : List String) (a b : Int) : List Int → List String
  | [] => groups ++ [groupStr a b]
  | x :: xs =>
    if x = b + 1 then formatLoop groups a x xs
    else formatLoop (groups ++ [groupStr a b]) x x xs

/-- The function `formatItemNumbers` from `TOSMatrix`: a dash for the empty list, the
bare decimal string for a singleton, and otherwise the parenthesized
comma-separated groups collected by the loop. -/
def formatItemNumbers (items : List Int) : String :=
  match items with
  | [] => "-"
  | [x] => toString x
  | x :: xs => "(" ++ String.intercalate ", " (formatLoop [] x x xs) ++ ")"

/-- Decomposition of a list into its maximal runs of consecutive ascending
numbers, each run given by its first and last element; `runsAux a b l`
continues a current run spanning `a..b`. -/
def runsAux (a b : Int) : List Int → List (Int × Int)
  | [] => [(a, b)]
  | x :: xs => if x = b + 1 then runsAux a x xs else (a, b) :: runsAux x x xs

/-- The maximal ascending runs of a list, in input order. -/
def runs : List Int → List (Int × Int)
  | [] => []
  | x :: xs => runsAux x x xs

/-- Render one run as the claim states it: a single number for an isolated
element, `a-b` for a run from `a` up to `b`. -/
def renderRun (p : Int × Int) : String :=
  groupStr p.1 p.2

/-- The elements a run `a..b` stands for: `[a, a+1, ..., b]`. -/
def expandRun (p : Int × Int) : List Int :=
  (List.range ((p.2 - p.1).toNat + 1)).map (fun (i : ℕ) => p.1 + (i : Int))

/-- The display form described by the claim: `'-'` for the empty list, the
bare decimal string for a singleton, and otherwise the parenthesized
comma-separated renderings of the maximal ascending runs. -/
def formatItemNumbersSpec (items : List Int) : String :=
  match items with
  | [] => "-"
  | [x] => toString x
  | _ :: _ :: _ => "(" ++ String.intercalate ", " ((runs items).map renderRun) ++ ")"

theorem formatLoop_eq_runsAux (l : List Int) :
    ∀ (groups : List String) (a b : Int),
      formatLoop groups a b l = groups ++ (runsAux a b l).map renderRun := by
  induction l with
  | nil => intro groups a b; rfl
  | cons x xs ih =>
    intro groups a b
    by_cases hx : x = b + 1
    · simp only [formatLoop, runsAux, if_pos hx]
      exact ih groups a x
    · simp only [formatLoop, runsAux, if_neg hx, List.map_cons]
      rw [ih]
      simp [renderRun, List.append_assoc]

theorem expandRun_single (a : Int) : expandRun (a, a) = [a] := by
  have h : List.range 1 = [0] := rfl
  simp [expandRun, h]

theorem expandRun_snoc (a b : Int) (h : a ≤ b) :
    expandRun (a, b + 1) = expandRun (a, b) ++ [b + 1] := by
  unfold expandRun
  have h1 : (b + 1 - a) = (b - a) + 1 := by ring
  have h2 : ((b - a) + 1).toNat = (b - a).toNat + 1 := by
    rw [Int.toNat_add (by omega) (by norm_num)]
    rfl
  have h3 : (((b - a).toNat : Int)) = b - a := Int.toNat_of_nonneg (by omega)
  rw [h1, h2, List.range_succ, List.map_append]
  simp only [List.map_cons, List.map_nil]
  have h4 : a + (((b - a).toNat + 1 : ℕ) : ℤ) = b + 1 := by
    push_cast [h3]
    ring
  rw [h4]

theorem runsAux_flat (l : List Int) : ∀ a b, a ≤ b →
    (runsAux a b l).flatMap expandRun = expandRun (a, b) ++ l := by
  induction l with
  | nil => intro a b _; simp [runsAux]
  | cons x xs ih =>
    intro a b h
    by_cases hx : x = b + 1
    · simp only [runsAux, if_pos hx]
      rw [ih a x (by omega)]
      subst hx
      rw [expandRun_snoc a b h]
      simp
    · simp only [runsAux, if_neg hx, List.flatMap_cons]
      rw [ih x x le_rfl, expandRun_single]
      simp

theorem runs_flat (l : List Int) : (runs l).flatMap expandRun = l := by
  cases l with
  | nil => rfl
  | cons x xs =>
    rw [runs, runsAux_flat xs x x le_rfl, expandRun_single]
    rfl

theorem runsAux_le (l : List Int) : ∀ a b, a ≤ b →
    ∀ p ∈ runsAux a b l, p.1 ≤ p.2 := by
  induction l with
  | nil =>
    intro a b h p hp
    simp only [runsAux, List.mem_singleton] at hp
    subst hp; exact h
  | cons x xs ih =>
    intro a b h p hp
    by_cases hx : x = b + 1
    · simp only [runsAux, if_pos hx] at hp
      exact ih a x (by omega) p hp
    · simp only [runsAux, if_neg hx, List.mem_cons] at hp
      rcases hp with hp | hp
      · subst hp; exact h
      · exact ih x x le_rfl p hp

theorem runs_le (l : List Int) : ∀ p ∈ runs l, p.1 ≤ p.2 := by
  cases l with
  | nil => intro p hp; simp [runs] at hp
  | cons x xs => exact runsAux_le xs x x le_rfl

theorem runsAux_head_fst (l : List Int) :
    ∀ a b, (runsAux a b l).head?.map Prod.fst = some a := by
  induction l with
  | nil => intro a b; rfl
  | cons x xs ih =>
    intro a b
    by_cases hx : x = b + 1
    · simp only [runsAux, if_pos hx]
      exact ih a x
    · simp only [runsAux, if_neg hx, List.head?_cons, Option.map_some']

theorem runsAux_chain (l : List Int) : ∀ a b,
    List.Chain' (fun p q : Int × Int => q.1 ≠ p.2 + 1) (runsAux a b l) := by
  induction l with
  | nil => intro a b; simp [runsAux]
  | cons x xs ih =>
    intro a b
    by_cases hx : x = b + 1
    · simp only [runsAux, if_pos hx]
      exact ih a x
    · simp only [runsAux, if_neg hx]
      rw [List.chain'_cons']
      refine ⟨?_, ih x x⟩
      intro y hy
      have hh := runsAux_head_fst xs x x
      rw [Option.mem_def] at hy
      rw [hy, Option.map_some'] at hh
      injection hh with hh
      rw [hh]
      exact hx

theorem runs_chain (l : List Int) :
    List.Chain' (fun p q : Int × Int => q.1 ≠ p.2 + 1) (runs l) := by
  cases l with
  | nil => simp [runs]
  | cons x xs => exact runsAux_chain xs x x

/-- C10: `formatItemNumbers` is the run-length display form - it renders
`'-'` on the empty list, the bare decimal string on a singleton, and
otherwise the parenthesized comma-separated renderings of the runs of the
input (each run `a..b` with `a < b` as `a-b`, isolated numbers bare);
these runs expand back to exactly the input in input order (each element
covered exactly once), each run is ascending (`a ≤ b`), and the runs are
maximal (no run starts at its predecessor's end plus one). -/
theorem formatItemNumbers_spec (items : List Int) :
    formatItemNumbers items = formatItemNumbersSpec items ∧
    (runs items).flatMap expandRun = items ∧
    (∀ p ∈ runs items, p.1 ≤ p.2) ∧
    List.Chain' (fun p q : Int × Int => q.1 ≠ p.2 + 1) (runs items) := by
  refine ⟨?_, runs_flat items, runs_le items, runs_chain items⟩
  match items with
  | [] => rfl
  | [x] => rfl
  | x :: y :: xs =>
    show "(" ++ String.intercalate ", " (formatLoop [] x x (y :: xs)) ++ ")" = _
    rw [formatLoop_eq_runsAux]
    rfl

theorem formatItemNumbers_spec_witness :
    formatItemNumbers [1, 2, 3, 7, 9, 10] =
      formatItemNumbersSpec [1, 2, 3, 7, 9, 10] ∧
    (runs [1, 2, 3, 7, 9, 10]).flatMap expandRun = [1, 2, 3, 7, 9, 10] :=
  ⟨(formatItemNumbers_spec [1, 2, 3, 7, 9, 10]).1,
    (formatItemNumbers_spec [1, 2, 3, 7, 9, 10]).2.1⟩

end LearnQuest
